import Mathlib

/-!
Verification of the `lotel` local-observability core against its
natural-language specification.

The definitions below are a shallow embedding of the Go sources:

* `internal/storage/db.go`      — DuckDB schema and `Prune`
* the storage query layer       — `QueryTraces` / `QueryMetrics` /
                                  `QueryLogs` / `AggregateMetrics`
* `internal/collector/collector.go` — supervisor state store and health probe
* `internal/storage/ingest.go`  — OTLP-JSON decoding and metric extraction
* the CLI time parsing          — `parseTime` / `parseDuration`

Conventions: SQL `TIMESTAMP` columns are modelled as `Int` (UNIX
nanoseconds, UTC); the Go zero `time.Time` is encoded as `0` where a
table column can carry it.  SQL `DOUBLE` is modelled as `ℚ` (the claims
under study do not depend on binary floating-point rounding).  A table
is a `List` of row structures mirroring the columns created in
`migrate`.
-/

namespace Lotel

/-! ## Relational model: rows and tables (schema from `migrate` in db.go) -/

/-- A row of the `traces` table. -/
structure TraceRow where
  trace_id       : String
  span_id        : String
  parent_span_id : Option String
  name           : String
  kind           : Int
  start_time     : Int
  end_time       : Int
  duration_ns    : Int
  status_code    : Int
  service_name   : String
  attributes     : String
  date           : String
deriving DecidableEq, Repr

/-- A row of the `metrics` table.  Every writer of this table
(`ingestMetrics`, the test helper) supplies a non-NULL `value`,
`aggregation_temporality` and `is_monotonic`, so they are modelled
non-optional. -/
structure MetricRow where
  metric_name             : String
  metric_type             : String
  value                   : ℚ
  timestamp               : Int
  service_name            : String
  aggregation_temporality : Int
  is_monotonic            : Bool
  unit                    : String
  attributes              : String
  date                    : String
deriving DecidableEq, Repr

/-- A row of the `logs` table. -/
structure LogRow where
  timestamp       : Int
  severity        : String
  severity_number : Int
  body            : String
  service_name    : String
  trace_id        : Option String
  span_id         : Option String
  attributes      : String
  date            : String
deriving DecidableEq, Repr

/-- The three tables of `lotel.db`. -/
structure DBState where
  traces  : List TraceRow
  metrics : List MetricRow
  logs    : List LogRow
deriving DecidableEq, Repr

/-! ## Query engine (query layer of the storage package) -/

/-- `QueryOptions` from the storage package.  A zero `Since`/`Until`
models Go's zero `time.Time` (`IsZero`), an empty `Service` and a
non-positive `Limit` model the absent filters. -/
structure QueryOptions where
  Service : String
  Since   : Int
  Until   : Int
  Limit   : Int
deriving DecidableEq, Repr

/-- The WHERE clause assembled by `buildWhere`: optional exact service
match, optional inclusive lower bound, optional inclusive upper bound
on the signal's time column. -/
def buildWhere (opts : QueryOptions) (svc : String) (t : Int) : Bool :=
  (opts.Service == "" || svc == opts.Service) &&
  (opts.Since == 0 || opts.Since ≤ t) &&
  (opts.Until == 0 || t ≤ opts.Until)

/-- `LIMIT n` is appended only when `opts.Limit > 0`. -/
def applyLimit (limit : Int) (xs : List α) : List α :=
  if limit > 0 then xs.take limit.toNat else xs

/-- `QueryTraces`: WHERE via `buildWhere` on `start_time`,
`ORDER BY start_time ASC`, then the optional LIMIT. -/
def QueryTraces (tbl : List TraceRow) (opts : QueryOptions) : List TraceRow :=
  applyLimit opts.Limit
    ((tbl.filter (fun r => buildWhere opts r.service_name r.start_time)).mergeSort
      (fun a b => a.start_time ≤ b.start_time))

/-- `QueryMetrics`: same shape over the `metrics` table, ordered by
`timestamp`. -/
def QueryMetrics (tbl : List MetricRow) (opts : QueryOptions) : List MetricRow :=
  applyLimit opts.Limit
    ((tbl.filter (fun r => buildWhere opts r.service_name r.timestamp)).mergeSort
      (fun a b => a.timestamp ≤ b.timestamp))

/-- `QueryLogs`: same shape over the `logs` table, ordered by
`timestamp`. -/
def QueryLogs (tbl : List LogRow) (opts : QueryOptions) : List LogRow :=
  applyLimit opts.Limit
    ((tbl.filter (fun r => buildWhere opts r.service_name r.timestamp)).mergeSort
      (fun a b => a.timestamp ≤ b.timestamp))

/-! ## Prune (db.go) -/

/-- One entry of the prune report (the source additionally renders the
cutoff as an RFC3339 string; the instant itself is kept here). -/
structure PruneReport where
  Signal      : String
  ServiceName : String
  Deleted     : Int
  Cutoff      : Int
deriving DecidableEq, Repr

/-- The WHERE clause of both the COUNT and the DELETE in `Prune`:
`timeCol < cutoff`, plus `service_name = service` when `service` is
non-empty. -/
def pruneMatch (cutoff : Int) (service : String) (svc : String) (t : Int) : Bool :=
  t < cutoff && (service == "" || svc == service)

/-- One iteration of the `Prune` loop over a single table: count the
matching rows; when not a dry run and the count is positive, delete
them and report the affected row count. -/
def pruneTable (timeOf : α → Int) (svcOf : α → String)
    (cutoff : Int) (service : String) (dryRun : Bool) (tbl : List α) :
    Int × List α :=
  let count : Int := (tbl.filter (fun r => pruneMatch cutoff service (svcOf r) (timeOf r))).length
  if !dryRun && count > 0 then
    let remaining := tbl.filter (fun r => !pruneMatch cutoff service (svcOf r) (timeOf r))
    -- RowsAffected of the DELETE: the number of rows removed.
    ((tbl.length : Int) - remaining.length, remaining)
  else
    (count, tbl)

/-- `Prune` from db.go: iterate the signals in the fixed order
`traces`, `metrics`, `logs`; return the per-signal reports and the
resulting database state. -/
def Prune (db : DBState) (cutoff : Int) (service : String) (dryRun : Bool) :
    List PruneReport × DBState :=
  let (dT, traces') := pruneTable (·.start_time) (·.service_name) cutoff service dryRun db.traces
  let (dM, metrics') := pruneTable (·.timestamp) (·.service_name) cutoff service dryRun db.metrics
  let (dL, logs') := pruneTable (·.timestamp) (·.service_name) cutoff service dryRun db.logs
  ([⟨"traces", service, dT, cutoff⟩,
    ⟨"metrics", service, dM, cutoff⟩,
    ⟨"logs", service, dL, cutoff⟩],
   ⟨traces', metrics', logs'⟩)

/-! ## Metric aggregation (query layer) -/

/-- `MetricAggregation`: `avg`/`min`/`max` are pointers in the source
and are omitted from the JSON when the SQL aggregates come back NULL. -/
structure MetricAggregation where
  MetricName  : String
  ServiceName : String
  Count       : Int
  Avg         : Option ℚ
  Min         : Option ℚ
  Max         : Option ℚ
deriving DecidableEq, Repr

/-- SQL `MIN(value)`: NULL over the empty set. -/
def sqlMin : List ℚ → Option ℚ
  | [] => none
  | x :: t => some (t.foldl (fun a b => if b < a then b else a) x)

/-- SQL `MAX(value)`: NULL over the empty set. -/
def sqlMax : List ℚ → Option ℚ
  | [] => none
  | x :: t => some (t.foldl (fun a b => if a < b then b else a) x)

/-- SQL `AVG(value)`: NULL over the empty set, else the unweighted
arithmetic mean. -/
def sqlAvg (xs : List ℚ) : Option ℚ :=
  match xs with
  | [] => none
  | _ => some (xs.sum / xs.length)

/-- The WHERE clause of `AggregateMetrics`: `metric_name = ?` plus the
same optional service/since/until conjuncts as `buildWhere`. -/
def aggMatch (opts : QueryOptions) (metricName : String) (r : MetricRow) : Bool :=
  r.metric_name == metricName &&
  (opts.Service == "" || r.service_name == opts.Service) &&
  (opts.Since == 0 || opts.Since ≤ r.timestamp) &&
  (opts.Until == 0 || r.timestamp ≤ opts.Until)

/-- `AggregateMetrics`: `SELECT COUNT(*), AVG(value), MIN(value),
MAX(value)` over the matching rows; NULL aggregates are left absent in
the result. -/
def AggregateMetrics (tbl : List MetricRow) (opts : QueryOptions)
    (metricName : String) : MetricAggregation :=
  let vals := (tbl.filter (aggMatch opts metricName)).map (·.value)
  { MetricName := metricName
    ServiceName := opts.Service
    Count := vals.length
    Avg := sqlAvg vals
    Min := sqlMin vals
    Max := sqlMax vals }

/-! ## Supervisor state store (internal/collector/collector.go)

The store manipulates two paths inside the state directory: the
canonical `collector.state` and the temporary `collector.state.tmp`.
File contents are modelled by their abstract value: a successfully
marshalled `State` record, or raw bytes that do not parse as one
(`json.Marshal` of `State` never fails, and `json.Unmarshal` inverts
it, so the round trip is carried by the `stateJSON` constructor). -/

/-- The persisted supervisor record (`State` in collector.go). -/
structure State where
  ContainerID   : String
  ContainerName : String
  Image         : String
  StartedAt     : Int
  ConfigPath    : String
  DataPath      : String
deriving DecidableEq, Repr

/-- Abstract contents of a file in the state directory. -/
inductive FileData where
  | stateJSON (s : State)
  | raw (bytes : String)
deriving DecidableEq, Repr

/-- The two files the store touches; `none` means the path does not
exist. -/
structure StateFS where
  canonical : Option FileData
  tmp       : Option FileData
deriving DecidableEq, Repr

/-- A state directory with neither file present. -/
def StateFS.empty : StateFS := ⟨none, none⟩

/-- `readState`: absent file is `nil` state (not an error); unparseable
contents are an error; otherwise the parsed record. -/
def readState (fs : StateFS) : Except String (Option State) :=
  match fs.canonical with
  | none => .ok none
  | some (.stateJSON s) => .ok (some s)
  | some (.raw _) => .error "parsing state file"

/-- Step one of `writeState`: `os.WriteFile` of the marshalled record
to the `.tmp` path in the same directory. -/
def writeTmp (s : State) (fs : StateFS) : StateFS :=
  { fs with tmp := some (.stateJSON s) }

/-- Step two of `writeState`: `os.Rename` of the temporary file over
the canonical path (atomic replace; the temporary name disappears). -/
def renameTmpOverCanonical (fs : StateFS) : StateFS :=
  { canonical := fs.tmp, tmp := none }

/-- `writeState`: marshal, write to the temp file, rename over the
canonical path. -/
def writeState (s : State) (fs : StateFS) : StateFS :=
  renameTmpOverCanonical (writeTmp s fs)

/-- `removeState`: best-effort delete; absence is not an error. -/
def removeState (fs : StateFS) : StateFS :=
  { fs with canonical := none }

/-- The operations of the store that mutate it. -/
inductive StoreOp where
  | write (s : State)
  | remove
deriving DecidableEq, Repr

/-- Run one store operation. -/
def applyOp (fs : StateFS) : StoreOp → StateFS
  | .write s => writeState s fs
  | .remove => removeState fs

/-- Run a sequence of store operations, oldest first. -/
def applyOps (fs : StateFS) (ops : List StoreOp) : StateFS :=
  ops.foldl applyOp fs

/-! ## Health probe (collector.go) -/

/-- The fixed health URL (`healthURL` constant). -/
def healthURL : String := "http://localhost:13133/"

/-- The probe client timeout, in seconds (`2 * time.Second`). -/
def healthTimeoutSeconds : Nat := 2

/-- `checkHealth`: the outcome of the HTTP GET is `none` for a
transport error (or timeout) and `some code` for a response with that
status code.  The source compares the code against
`http.StatusOK` (200). -/
def checkHealth (resp : Option Nat) : Bool :=
  match resp with
  | none => false
  | some code => code == 200

/-! ## Locating the executable on start (collector.go) -/

/-- `exec.LookPath` over the model of `PATH`: the list of executable
names resolvable in it. -/
def lookPath (path : List String) (name : String) : Option String :=
  if name ∈ path then some name else none

/-- `findDocker`: the binary the `Start` path actually searches for,
with the error text it fails with. -/
def findDocker (path : List String) : Except String String :=
  match lookPath path "docker" with
  | some p => .ok p
  | none => .error "docker not found in PATH; install from https://docs.docker.com/get-docker/"

/-- Modelled from the spec: the collector-executable search the spec
(§4.3) and the package's own tests and README describe — `PATH` is
searched for `otelcol-contrib` and then `otelcol`; neither found is a
hard failure with installation guidance.  This locator is absent from
the source tree (the checked-in `Start` still searches for `docker`). -/
def locateCollectorSpec (path : List String) : Except String String :=
  match lookPath path "otelcol-contrib" with
  | some p => .ok p
  | none =>
    match lookPath path "otelcol" with
    | some p => .ok p
    | none => .error "otelcol-contrib or otelcol not found in PATH; install the OpenTelemetry Collector"

/-! ## OTLP ingestion (internal/storage/ingest.go) -/

/-- The optional leading sign consumed by the numeric `Sscanf` verbs:
whether the sign was `-`, and the remaining characters. -/
def stripSign : List Char → Bool × List Char
  | '-' :: rest => (true, rest)
  | '+' :: rest => (false, rest)
  | cs => (false, cs)

theorem stripSign_sublist (cs : List Char) : (stripSign cs).2.Sublist cs := by
  unfold stripSign
  split
  · exact List.sublist_cons_self _ _
  · exact List.sublist_cons_self _ _
  · exact List.Sublist.refl _

/-- `fmt.Sscanf(s, "%d", &v)` as used by `otlpNano.UnmarshalJSON`:
skip leading white space, an optional sign, then a decimal digit run.
On a failed or out-of-`int64`-range scan the error is discarded and
the target keeps its zero value. -/
def sscanfD (s : String) : Int :=
  let cs := (stripSign (s.data.dropWhile (·.isWhitespace))).2
  let negSign := (stripSign (s.data.dropWhile (·.isWhitespace))).1
  let digits := cs.takeWhile (·.isDigit)
  if digits.isEmpty then 0
  else
    let v : Int := digits.foldl (fun a c => a * 10 + ((c.toNat : Int) - 48)) 0
    let signed := if negSign then -v else v
    if signed < -(2 ^ 63) || signed > 2 ^ 63 - 1 then 0 else signed

/-- A JSON scalar as seen by `otlpNano.UnmarshalJSON`: a string, an
integral number (`json.Unmarshal` into `int64` succeeds), or any other
JSON value (for which that unmarshal fails). -/
inductive JsonScalar where
  | str (s : String)
  | num (n : Int)
  | other
deriving DecidableEq, Repr

/-- `otlpNano.UnmarshalJSON`: a string unmarshals via `Sscanf "%d"`
with the scan error ignored; otherwise the bytes must unmarshal as an
`int64`. -/
def otlpNanoUnmarshal : JsonScalar → Except String Int
  | .str s => .ok (sscanfD s)
  | .num n => .ok n
  | .other => .error "cannot unmarshal into int64"

/-- `otlpNano.Time`: `0` maps to the zero instant (`time.Time{}`,
modelled `none`); anything else to the UTC instant at that many UNIX
nanoseconds. -/
def otlpNanoTime (n : Int) : Option Int :=
  if n = 0 then none else some n

/-- `fmt.Sscanf(s, "%f", &v)` as used by `otlpDataPoint.Value` on
`asInt`: an optional sign, a decimal mantissa, an optional exponent.
A failed scan leaves the zero value.  The source computes in
`float64`; the claims under study only exercise integral inputs, for
which the rational value coincides. -/
def sscanfF (s : String) : ℚ :=
  let cs := (stripSign (s.data.dropWhile (·.isWhitespace))).2
  let negSign := (stripSign (s.data.dropWhile (·.isWhitespace))).1
  let intDigits := cs.takeWhile (·.isDigit)
  let rest := cs.drop intDigits.length
  let (fracDigits, rest) : List Char × List Char :=
    match rest with
    | '.' :: r => (r.takeWhile (·.isDigit), r.drop (r.takeWhile (·.isDigit)).length)
    | _ => ([], rest)
  if intDigits.isEmpty && fracDigits.isEmpty then 0
  else
    let mantissa : ℚ :=
      (intDigits.foldl (fun a c => a * 10 + ((c.toNat : ℚ) - 48)) 0) +
      (fracDigits.foldl (fun a c => a * 10 + ((c.toNat : ℚ) - 48)) 0) / (10 ^ fracDigits.length)
    let expVal : Option Int :=
      match rest with
      | 'e' :: r | 'E' :: r =>
        let eneg := (stripSign r).1
        let eds := (stripSign r).2.takeWhile (·.isDigit)
        if eds.isEmpty then none
        else
          let e : Int := eds.foldl (fun a c => a * 10 + ((c.toNat : Int) - 48)) 0
          some (if eneg then -e else e)
      | _ => some 0
    match expVal with
    | none => 0
    | some e =>
      let signedMantissa := if negSign then -mantissa else mantissa
      signedMantissa * (10 : ℚ) ^ e

/-- An OTLP typed value (`otlpValue`). -/
structure otlpValue where
  StringValue : Option String
  IntValue    : Option String
  BoolValue   : Option Bool
  DoubleValue : Option ℚ
deriving DecidableEq, Repr

/-- An OTLP key-value attribute (`otlpAttr`). -/
structure otlpAttr where
  Key   : String
  Value : otlpValue
deriving DecidableEq, Repr

/-- A sum/gauge data point (`otlpDataPoint`); the timestamp is the raw
`otlpNano` value. -/
structure otlpDataPoint where
  Attributes   : List otlpAttr
  TimeUnixNano : Int
  AsInt        : Option String
  AsDouble     : Option ℚ
deriving DecidableEq, Repr

/-- `otlpDataPoint.Value`: `asDouble` when present, else the `%f` scan
of `asInt`, else `0`. -/
def otlpDataPoint.Value (dp : otlpDataPoint) : ℚ :=
  match dp.AsDouble with
  | some d => d
  | none =>
    match dp.AsInt with
    | some s => sscanfF s
    | none => 0

/-- A histogram data point (`otlpHistogramDP`). -/
structure otlpHistogramDP where
  Attributes   : List otlpAttr
  TimeUnixNano : Int
  Count        : Option String
  Sum          : Option ℚ
deriving DecidableEq, Repr

/-- The sum shape of a metric (`otlpSum`). -/
structure otlpSum where
  DataPoints             : List otlpDataPoint
  AggregationTemporality : Int
  IsMonotonic            : Bool
deriving DecidableEq, Repr

/-- The gauge shape of a metric (`otlpGauge`). -/
structure otlpGauge where
  DataPoints : List otlpDataPoint
deriving DecidableEq, Repr

/-- The histogram shape of a metric (`otlpHistogram`). -/
structure otlpHistogram where
  DataPoints             : List otlpHistogramDP
  AggregationTemporality : Int
deriving DecidableEq, Repr

/-- An OTLP metric record (`otlpMetric`). -/
structure otlpMetric where
  Name        : String
  Description : String
  Unit        : String
  Sum         : Option otlpSum
  Gauge       : Option otlpGauge
  Histogram   : Option otlpHistogram
deriving DecidableEq, Repr

/-- An extracted, normalized data point (`metricPoint`); the timestamp
keeps the raw nanosecond value whose `Time()` image it is stored
under. -/
structure metricPoint where
  metricType  : String
  value       : ℚ
  timestamp   : Int
  temporality : Int
  monotonic   : Bool
  attributes  : List otlpAttr
deriving DecidableEq, Repr

/-- `extractDataPoints`: the three shapes are examined independently
(`if`, not `else if`), each appending its points in data-point order,
so the result is the sum points, then the gauge points, then the
histogram points. -/
def extractDataPoints (m : otlpMetric) : List metricPoint :=
  (match m.Sum with
   | some su => su.DataPoints.map (fun dp =>
       ⟨"sum", dp.Value, dp.TimeUnixNano, su.AggregationTemporality, su.IsMonotonic, dp.Attributes⟩)
   | none => []) ++
  (match m.Gauge with
   | some g => g.DataPoints.map (fun dp =>
       ⟨"gauge", dp.Value, dp.TimeUnixNano, 0, false, dp.Attributes⟩)
   | none => []) ++
  (match m.Histogram with
   | some h => h.DataPoints.map (fun dp =>
       ⟨"histogram", (match dp.Sum with | some v => v | none => 0), dp.TimeUnixNano,
        h.AggregationTemporality, false, dp.Attributes⟩)
   | none => [])

/-! ## CLI time parsing (the `lotel` command shell)

`parseDuration` first tries the `Nd` day form via `fmt.Sscanf(s,
"%dd", &days)` and otherwise delegates to Go's `time.ParseDuration`,
which is embedded below (`unitMapGo`, `leadingIntGo`,
`leadingFractionGo`, `durStep`, `durLoop`, `goParseDuration`).
`uint64` quantities are `Nat` with the source's explicit overflow
guards; the one addition those guards do not protect (`d += v`) wraps
modulo `2 ^ 64` exactly as the machine word does. -/

/-- Go's `unitMap`: nanoseconds per duration unit token. -/
def unitMapGo (u : String) : Option Nat :=
  if u = "ns" then some 1
  else if u = "us" then some 1000
  else if u = "µs" then some 1000
  else if u = "μs" then some 1000
  else if u = "ms" then some 1000000
  else if u = "s" then some 1000000000
  else if u = "m" then some 60000000000
  else if u = "h" then some 3600000000000
  else none

/-- Go's `leadingInt`: consume a leading digit run into a `uint64`,
erroring (`none`) on overflow past `1 << 63`. -/
def leadingIntGo (x : Nat) : List Char → Option (Nat × List Char)
  | [] => some (x, [])
  | c :: rest =>
    if c < '0' ∨ '9' < c then some (x, c :: rest)
    else if x > 2 ^ 63 / 10 then none
    else
      let y := x * 10 + (c.toNat - 48)
      if y > 2 ^ 63 then none
      else leadingIntGo y rest

/-- Go's `leadingFraction`: consume the digits after the decimal
point, tracking the power-of-ten scale and silently saturating on
overflow (the scale is a `float64` in the source; every power of ten
it can reach is exactly representable, so `Nat` is faithful). -/
def leadingFractionGo (x scale : Nat) (overflow : Bool) :
    List Char → Nat × Nat × List Char
  | [] => (x, scale, [])
  | c :: rest =>
    if c < '0' ∨ '9' < c then (x, scale, c :: rest)
    else if overflow then leadingFractionGo x scale true rest
    else if x > (2 ^ 63 - 1) / 10 then leadingFractionGo x scale true rest
    else
      let y := x * 10 + (c.toNat - 48)
      if y > 2 ^ 63 then leadingFractionGo x scale true rest
      else leadingFractionGo y (scale * 10) false rest

/-- A character at which Go's unit scan stops. -/
def durUnitStop (c : Char) : Bool :=
  c = '.' ∨ ('0' ≤ c ∧ c ≤ '9')

/-- The `(\.[0-9]*)?` step of a duration component: when the remainder
after the integer part starts with a decimal point, consume the
fraction via `leadingFraction`; the result is `(f, scale, remainder,
post)` with `post` recording whether fraction digits were consumed. -/
def durFrac (s1 : List Char) : Nat × Nat × List Char × Bool :=
  match s1 with
  | '.' :: r =>
    let t := leadingFractionGo 0 1 false r
    (t.1, t.2.1, t.2.2, t.2.2.length != r.length)
  | _ => (0, 1, s1, false)

/-- One component of a Go duration string
(`[0-9]*(\.[0-9]*)?[a-z]+`): the value in nanoseconds and the
remaining characters.  The fractional contribution is
`uint64(float64(f) * (float64(unit) / scale))` in the source; it is
taken here as the exact truncated rational, which agrees on every
input without a fractional part. -/
def durStep (cs : List Char) : Option (Nat × List Char) :=
  match cs with
  | [] => none
  | c :: _ =>
    if ¬durUnitStop c then none
    else
      match leadingIntGo 0 cs with
      | none => none
      | some (v, s1) =>
        let pre : Bool := s1.length != cs.length
        let f := (durFrac s1).1
        let scale := (durFrac s1).2.1
        let s2 := (durFrac s1).2.2.1
        let post := (durFrac s1).2.2.2
        if !pre && !post then none
        else
          let i := (s2.takeWhile (fun ch => !durUnitStop ch)).length
          if i = 0 then none
          else
            match unitMapGo (String.mk (s2.take i)) with
            | none => none
            | some unit =>
              if v > 2 ^ 63 / unit then none
              else
                let v1 := v * unit
                let v2 := if f > 0 then v1 + f * unit / scale else v1
                if f > 0 ∧ v2 > 2 ^ 63 then none
                else some (v2, s2.drop i)

theorem leadingIntGo_length_le (cs : List Char) :
    ∀ x v r, leadingIntGo x cs = some (v, r) → r.length ≤ cs.length := by
  induction cs with
  | nil =>
    intro x v r h
    simp only [leadingIntGo] at h
    cases h
    simp
  | cons c rest ih =>
    intro x v r h
    simp only [leadingIntGo] at h
    split at h
    · cases h; simp
    · split at h
      · cases h
      · split at h
        · cases h
        · exact le_trans (ih _ _ _ h) (by simp)

theorem leadingFractionGo_length_le (cs : List Char) :
    ∀ x scale ov, (leadingFractionGo x scale ov cs).2.2.length ≤ cs.length := by
  induction cs with
  | nil => intro x scale ov; simp [leadingFractionGo]
  | cons c rest ih =>
    intro x scale ov
    simp only [leadingFractionGo]
    split
    · simp
    · split
      · exact le_trans (ih _ _ _) (by simp)
      · split
        · exact le_trans (ih _ _ _) (by simp)
        · split
          · exact le_trans (ih _ _ _) (by simp)
          · exact le_trans (ih _ _ _) (by simp)

theorem durFrac_length_le (s1 : List Char) :
    (durFrac s1).2.2.1.length ≤ s1.length := by
  unfold durFrac
  split
  · rename_i r
    have := leadingFractionGo_length_le r 0 1 false
    simpa using Nat.le_succ_of_le this
  · simp

theorem durStep_length_lt (cs : List Char) :
    ∀ v r, durStep cs = some (v, r) → r.length < cs.length := by
  intro v r h
  match cs with
  | [] => simp [durStep] at h
  | c :: cs' =>
    simp only [durStep] at h
    split at h
    · cases h
    · split at h
      · cases h
      · rename_i v0 s1 h1
        have hs1 : s1.length ≤ (c :: cs').length :=
          leadingIntGo_length_le _ _ _ _ h1
        have hs2 : (durFrac s1).2.2.1.length ≤ (c :: cs').length :=
          le_trans (durFrac_length_le s1) hs1
        split at h
        · cases h
        · split at h
          · cases h
          · rename_i hi0
            have hi : ((durFrac s1).2.2.1.takeWhile (fun ch => !durUnitStop ch)).length ≤
                (durFrac s1).2.2.1.length :=
              ((durFrac s1).2.2.1.takeWhile_sublist _).length_le
            split at h
            · cases h
            · split at h
              · cases h
              · split at h <;>
                · split at h
                  · cases h
                  · cases h
                    simp only [List.length_drop]
                    omega


/-- The component loop of `time.ParseDuration`: each component's
nanoseconds are added to the running `uint64` total (`d += v`, the one
unguarded machine addition, hence the wrap), which must stay within
`1 << 63`.  The structural `fuel` argument is started at the input
length by `goParseDuration`; it never runs out, because each
successful `durStep` consumes at least one character
(`durStep_length_lt`). -/
def durLoop : Nat → List Char → Nat → Option Nat
  | _, [], d => some d
  | 0, _ :: _, _ => none
  | fuel + 1, c :: rest0, d =>
    match durStep (c :: rest0) with
    | none => none
    | some (v2, rest) =>
      let d' := (d + v2) % 2 ^ 64
      if d' > 2 ^ 63 then none
      else durLoop fuel rest d'

/-- `int64(u)` for a `uint64` value. -/
def int64OfUInt64 (d : Nat) : Int :=
  if d ≥ 2 ^ 63 then (d : Int) - 2 ^ 64 else (d : Int)

/-- Two's-complement negation of an `int64` (`-x` wraps at the minimum
value). -/
def int64Neg (x : Int) : Int :=
  if x = -(2 ^ 63) then x else -x

/-- `time.ParseDuration`: optional sign, the `"0"` special case, then
one or more components; the result is nanoseconds as an `int64`. -/
def goParseDuration (s : String) : Option Int :=
  let cs0 := s.data
  let (neg, cs) : Bool × List Char :=
    match cs0 with
    | c :: rest => if c = '-' ∨ c = '+' then (c = '-', rest) else (false, cs0)
    | [] => (false, cs0)
  if cs = ['0'] then some 0
  else if cs = [] then none
  else
    match durLoop cs.length cs 0 with
    | none => none
    | some d =>
      if neg then some (int64Neg (int64OfUInt64 d))
      else if d > 2 ^ 63 - 1 then none
      else some (d : Int)

/-- Wrap an integer into `int64` range, as Go's `Duration` arithmetic
does on overflow. -/
def int64Wrap (x : Int) : Int :=
  (x + 2 ^ 63) % 2 ^ 64 - 2 ^ 63

/-- `fmt.Sscanf(s, "%dd", &days)` as used by `parseDuration`: skip
white space, scan an optionally-signed decimal integer into an `int`
(an out-of-`int64`-range value is a scan error), then require the
literal `d`; input after the matched verbs is ignored. -/
def sscanfDD (s : String) : Option Int :=
  let cs := (stripSign (s.data.dropWhile (·.isWhitespace))).2
  let negSign := (stripSign (s.data.dropWhile (·.isWhitespace))).1
  let digits := cs.takeWhile (·.isDigit)
  if digits.isEmpty then none
  else
    let v : Int := digits.foldl (fun a c => a * 10 + ((c.toNat : Int) - 48)) 0
    let signed := if negSign then -v else v
    if signed < -(2 ^ 63) ∨ signed > 2 ^ 63 - 1 then none
    else
      match cs.drop digits.length with
      | 'd' :: _ => some signed
      | _ => none

/-- `parseDuration` from the CLI: support `Nd` for days (scanned with
`%dd` when the last byte is `d`), otherwise `time.ParseDuration`.  The
`days * 24 * time.Hour` product is `int64` arithmetic. -/
def parseDuration (s : String) : Option Int :=
  if s.data.length > 1 ∧ s.data.getLast? = some 'd' then
    match sscanfDD s with
    | some days => some (int64Wrap (days * 24 * 3600000000000))
    | none => goParseDuration s
  else goParseDuration s

/-! ## Claim-side grammars for the time-parsing claim

These two recognizers transcribe the spec's wording, not the source:
the relative-duration grammar "a decimal integer followed by a unit
`s`, `m`, `h`, or `d`", and the surface shape of an RFC3339 instant. -/

/-- The spec's relative-duration grammar. -/
def specDurationGrammar (s : String) : Bool :=
  match s.data.getLast? with
  | some u => (u = 's' || u = 'm' || u = 'h' || u = 'd') &&
              !s.data.dropLast.isEmpty && s.data.dropLast.all (·.isDigit)
  | none => false

/-- Nanoseconds per spec unit letter (days = 24 h). -/
def specUnitNanos (u : Char) : Nat :=
  if u = 's' then 1000000000
  else if u = 'm' then 60000000000
  else if u = 'h' then 3600000000000
  else 86400000000000

/-- The numeric value of a digit run. -/
def digitsValNat (ds : List Char) : Nat :=
  ds.foldl (fun a c => a * 10 + (c.toNat - 48)) 0

/-- Offset tail of an RFC3339 instant: `Z` or `±hh:mm`. -/
def rfc3339Offset : List Char → Bool
  | ['Z'] => true
  | [sg, h1, h2, ':', m1, m2] =>
    (sg = '+' || sg = '-') && [h1, h2, m1, m2].all (·.isDigit)
  | _ => false

/-- Surface shape of an RFC3339 instant:
`YYYY-MM-DDThh:mm:ss[.fraction](Z|±hh:mm)`. -/
def rfc3339Shape (s : String) : Bool :=
  match s.data with
  | y1 :: y2 :: y3 :: y4 :: '-' :: m1 :: m2 :: '-' :: d1 :: d2 :: 'T' ::
    h1 :: h2 :: ':' :: mi1 :: mi2 :: ':' :: s1 :: s2 :: rest =>
    ([y1, y2, y3, y4, m1, m2, d1, d2, h1, h2, mi1, mi2, s1, s2].all (·.isDigit)) &&
    (match rest with
     | '.' :: r =>
       !(r.takeWhile (·.isDigit)).isEmpty &&
       rfc3339Offset (r.dropWhile (·.isDigit))
     | _ => rfc3339Offset rest)
  | _ => false

/-! ## Helper lemmas -/

theorem mem_applyLimit {xs : List α} {a : α} {l : Int}
    (h : a ∈ applyLimit l xs) : a ∈ xs := by
  unfold applyLimit at h
  split at h
  · exact (List.take_sublist _ _).mem h
  · exact h

theorem pairwise_applyLimit {R : α → α → Prop} {xs : List α} {l : Int}
    (h : xs.Pairwise R) : (applyLimit l xs).Pairwise R := by
  unfold applyLimit
  split
  · exact h.sublist (List.take_sublist _ _)
  · exact h

theorem length_filter_not_add (p : α → Bool) (l : List α) :
    ((l.filter fun a => !p a).length : Int) + (l.filter p).length = l.length := by
  induction l with
  | nil => simp
  | cons a t ih =>
    by_cases h : p a <;> simp [List.filter, h] <;> omega

theorem int_le_total_bool (a b : Int) : (decide (a ≤ b) || decide (b ≤ a)) = true := by
  simpa using Int.le_total a b

theorem pairwise_mergeSort_key {α : Type} (key : α → Int) (l : List α) :
    (l.mergeSort (fun a b => key a ≤ key b)).Pairwise (fun a b => key a ≤ key b) := by
  have h := @List.sorted_mergeSort α (fun a b => decide (key a ≤ key b))
    (fun a b c hab hbc => by
      simp only [decide_eq_true_eq] at *
      omega)
    (fun a b => int_le_total_bool _ _) l
  exact h.imp (fun hab => by simpa using hab)

/-! ## C2 — non-aggregate queries: ordering and limit -/

/-- C2: for every query options value, each of `queryTraces`,
`queryMetrics` and `queryLogs` returns rows sorted non-decreasing in
the signal's primary timestamp column (`start_time` for traces,
`timestamp` for metrics and logs), and when a positive limit is given
the result is the first `limit` rows of the ordered full result —
limit is applied after ordering. -/
theorem queries_sorted_and_limit_after_order
    (tracesTbl : List TraceRow) (metricsTbl : List MetricRow)
    (logsTbl : List LogRow) (opts : QueryOptions) :
    (QueryTraces tracesTbl opts).Pairwise (fun a b => a.start_time ≤ b.start_time) ∧
    (QueryMetrics metricsTbl opts).Pairwise (fun a b => a.timestamp ≤ b.timestamp) ∧
    (QueryLogs logsTbl opts).Pairwise (fun a b => a.timestamp ≤ b.timestamp) ∧
    (0 < opts.Limit →
      QueryTraces tracesTbl opts =
        (QueryTraces tracesTbl { opts with Limit := 0 }).take opts.Limit.toNat ∧
      QueryMetrics metricsTbl opts =
        (QueryMetrics metricsTbl { opts with Limit := 0 }).take opts.Limit.toNat ∧
      QueryLogs logsTbl opts =
        (QueryLogs logsTbl { opts with Limit := 0 }).take opts.Limit.toNat) := by
  refine ⟨?_, ?_, ?_, ?_⟩
  · exact pairwise_applyLimit
      (pairwise_mergeSort_key (fun r : TraceRow => r.start_time) _)
  · exact pairwise_applyLimit
      (pairwise_mergeSort_key (fun r : MetricRow => r.timestamp) _)
  · exact pairwise_applyLimit
      (pairwise_mergeSort_key (fun r : LogRow => r.timestamp) _)
  · intro hl
    refine ⟨?_, ?_, ?_⟩ <;>
      simp [QueryTraces, QueryMetrics, QueryLogs, applyLimit, hl, buildWhere]

/-- Witness for C2 at a two-row trace table and `limit = 1`. -/
theorem queries_sorted_and_limit_after_order_witness :
    (0 : Int) < 1 ∧
    QueryTraces
        [⟨"t", "b", none, "späterer", 0, 9, 9, 0, 0, "svc", "{}", "1970-01-01"⟩,
         ⟨"t", "a", none, "früherer", 0, 3, 4, 1, 0, "svc", "{}", "1970-01-01"⟩]
        ⟨"", 0, 0, 1⟩ =
      (QueryTraces
        [⟨"t", "b", none, "späterer", 0, 9, 9, 0, 0, "svc", "{}", "1970-01-01"⟩,
         ⟨"t", "a", none, "früherer", 0, 3, 4, 1, 0, "svc", "{}", "1970-01-01"⟩]
        ⟨"", 0, 0, 0⟩).take 1 := by
  refine ⟨by decide, ?_⟩
  have h := (queries_sorted_and_limit_after_order
    [⟨"t", "b", none, "späterer", 0, 9, 9, 0, 0, "svc", "{}", "1970-01-01"⟩,
     ⟨"t", "a", none, "früherer", 0, 3, 4, 1, 0, "svc", "{}", "1970-01-01"⟩]
    [] [] ⟨"", 0, 0, 1⟩).2.2.2 (by decide)
  simpa using h.1

/-! ## C1 — prune: dry-run frame, exact deletion, post-state queries -/

theorem pruneTable_dry (timeOf : α → Int) (svcOf : α → String)
    (cutoff : Int) (service : String) (tbl : List α) :
    pruneTable timeOf svcOf cutoff service true tbl =
      (((tbl.filter fun r => pruneMatch cutoff service (svcOf r) (timeOf r)).length : Int),
       tbl) := by
  simp [pruneTable]

theorem pruneTable_delete (timeOf : α → Int) (svcOf : α → String)
    (cutoff : Int) (service : String) (tbl : List α) :
    pruneTable timeOf svcOf cutoff service false tbl =
      (((tbl.filter fun r => pruneMatch cutoff service (svcOf r) (timeOf r)).length : Int),
       tbl.filter fun r => !pruneMatch cutoff service (svcOf r) (timeOf r)) := by
  simp only [pruneTable]
  split
  · refine Prod.ext ?_ rfl
    have := length_filter_not_add
      (fun r => pruneMatch cutoff service (svcOf r) (timeOf r)) tbl
    simp only
    omega
  · rename_i h
    have hz : (tbl.filter fun r => pruneMatch cutoff service (svcOf r) (timeOf r)) = [] := by
      simp only [Bool.not_false, Bool.true_and, decide_eq_true_eq, not_lt] at h
      have hlen : ((tbl.filter fun r => pruneMatch cutoff service (svcOf r) (timeOf r)).length : Int) ≤ 0 := h
      have : (tbl.filter fun r => pruneMatch cutoff service (svcOf r) (timeOf r)).length = 0 := by
        omega
      exact List.length_eq_zero.mp this
    have hself : (tbl.filter fun r => !pruneMatch cutoff service (svcOf r) (timeOf r)) = tbl := by
      rw [List.filter_eq_self]
      intro a ha
      have := List.filter_eq_nil_iff.mp hz a ha
      simpa using this
    rw [hz, hself]

theorem mem_of_mem_QueryTraces {tbl : List TraceRow} {opts : QueryOptions}
    {r : TraceRow} (h : r ∈ QueryTraces tbl opts) : r ∈ tbl := by
  unfold QueryTraces at h
  have h2 := mem_applyLimit h
  rw [List.mem_mergeSort] at h2
  exact List.mem_of_mem_filter h2

theorem mem_of_mem_QueryMetrics {tbl : List MetricRow} {opts : QueryOptions}
    {r : MetricRow} (h : r ∈ QueryMetrics tbl opts) : r ∈ tbl := by
  unfold QueryMetrics at h
  have h2 := mem_applyLimit h
  rw [List.mem_mergeSort] at h2
  exact List.mem_of_mem_filter h2

theorem mem_of_mem_QueryLogs {tbl : List LogRow} {opts : QueryOptions}
    {r : LogRow} (h : r ∈ QueryLogs tbl opts) : r ∈ tbl := by
  unfold QueryLogs at h
  have h2 := mem_applyLimit h
  rw [List.mem_mergeSort] at h2
  exact List.mem_of_mem_filter h2

theorem not_pruneMatch_prop {cutoff : Int} {service svc : String} {t : Int}
    (h : pruneMatch cutoff service svc t = false) :
    ¬(t < cutoff ∧ (service = "" ∨ svc = service)) := by
  simp only [pruneMatch, Bool.and_eq_false_iff, decide_eq_false_iff_not,
    Bool.or_eq_false_iff, beq_eq_false_iff_ne, ne_eq] at h
  tauto

/-- C1: for every cutoff, service filter and database state, prune
with `dryRun=true` leaves all three tables unchanged while reporting,
per signal, the count of rows whose primary timestamp is strictly
below the cutoff and (for a non-empty `service`) whose `service_name`
matches; prune with `dryRun=false` deletes exactly those rows and no
others and reports the affected counts, so no subsequent query returns
a row with primary timestamp strictly below the cutoff that matches
the service filter. -/
theorem prune_dry_run_frame_and_exact_delete
    (db : DBState) (cutoff : Int) (service : String) :
    (Prune db cutoff service true).2 = db ∧
    (Prune db cutoff service true).1 =
      [⟨"traces", service,
         ((db.traces.filter fun r => pruneMatch cutoff service r.service_name r.start_time).length : Int),
         cutoff⟩,
       ⟨"metrics", service,
         ((db.metrics.filter fun r => pruneMatch cutoff service r.service_name r.timestamp).length : Int),
         cutoff⟩,
       ⟨"logs", service,
         ((db.logs.filter fun r => pruneMatch cutoff service r.service_name r.timestamp).length : Int),
         cutoff⟩] ∧
    (Prune db cutoff service false).2 =
      ⟨db.traces.filter fun r => !pruneMatch cutoff service r.service_name r.start_time,
       db.metrics.filter fun r => !pruneMatch cutoff service r.service_name r.timestamp,
       db.logs.filter fun r => !pruneMatch cutoff service r.service_name r.timestamp⟩ ∧
    (Prune db cutoff service false).1 = (Prune db cutoff service true).1 ∧
    (∀ opts r, r ∈ QueryTraces (Prune db cutoff service false).2.traces opts →
      ¬(r.start_time < cutoff ∧ (service = "" ∨ r.service_name = service))) ∧
    (∀ opts r, r ∈ QueryMetrics (Prune db cutoff service false).2.metrics opts →
      ¬(r.timestamp < cutoff ∧ (service = "" ∨ r.service_name = service))) ∧
    (∀ opts r, r ∈ QueryLogs (Prune db cutoff service false).2.logs opts →
      ¬(r.timestamp < cutoff ∧ (service = "" ∨ r.service_name = service))) := by
  have hdel :
      (Prune db cutoff service false).2 =
        ⟨db.traces.filter fun r => !pruneMatch cutoff service r.service_name r.start_time,
         db.metrics.filter fun r => !pruneMatch cutoff service r.service_name r.timestamp,
         db.logs.filter fun r => !pruneMatch cutoff service r.service_name r.timestamp⟩ := by
    simp [Prune, pruneTable_delete]
  refine ⟨?_, ?_, hdel, ?_, ?_, ?_, ?_⟩
  · simp [Prune, pruneTable_dry]
  · simp [Prune, pruneTable_dry]
  · simp [Prune, pruneTable_dry, pruneTable_delete]
  · intro opts r hr
    have hmem := mem_of_mem_QueryTraces hr
    rw [hdel] at hmem
    have := List.of_mem_filter hmem
    exact not_pruneMatch_prop (by simpa using this)
  · intro opts r hr
    have hmem := mem_of_mem_QueryMetrics hr
    rw [hdel] at hmem
    have := List.of_mem_filter hmem
    exact not_pruneMatch_prop (by simpa using this)
  · intro opts r hr
    have hmem := mem_of_mem_QueryLogs hr
    rw [hdel] at hmem
    have := List.of_mem_filter hmem
    exact not_pruneMatch_prop (by simpa using this)

/-- A two-row trace table for the prune witness: one row strictly
older than the cutoff `100`, one newer. -/
def pruneWitnessDB : DBState :=
  ⟨[⟨"t", "old", none, "a", 0, 50, 60, 10, 0, "svc", "{}", "1970-01-01"⟩,
    ⟨"t", "new", none, "b", 0, 200, 210, 10, 0, "svc", "{}", "1970-01-01"⟩],
   [], []⟩

/-- Witness for C1: the surviving row returned by a query after a real
prune at cutoff `100` is not older than the cutoff. -/
theorem prune_dry_run_frame_and_exact_delete_witness :
    (Prune pruneWitnessDB 100 "" true).2 = pruneWitnessDB ∧
    ¬((⟨"t", "new", none, "b", 0, 200, 210, 10, 0, "svc", "{}", "1970-01-01"⟩ : TraceRow).start_time < 100 ∧
      ("" = "" ∨ (⟨"t", "new", none, "b", 0, 200, 210, 10, 0, "svc", "{}", "1970-01-01"⟩ : TraceRow).service_name = "")) := by
  refine ⟨(prune_dry_run_frame_and_exact_delete pruneWitnessDB 100 "").1, ?_⟩
  refine (prune_dry_run_frame_and_exact_delete pruneWitnessDB 100 "").2.2.2.2.1
    ⟨"", 0, 0, 0⟩ _ ?_
  unfold QueryTraces applyLimit
  rw [if_neg (by decide), List.mem_mergeSort]
  decide

/-! ## C5 — aggregateMetrics: empty window vs. populated window -/

theorem foldl_min_mem (t : List ℚ) :
    ∀ x, t.foldl (fun a b => if b < a then b else a) x ∈ x :: t := by
  induction t with
  | nil => intro x; simp
  | cons b t ih =>
    intro x
    have h := ih (if b < x then b else x)
    simp only [List.foldl_cons]
    rcases List.mem_cons.mp h with h1 | h1
    · by_cases hb : b < x
      · rw [h1]; simp [hb]
      · rw [h1]; simp [hb]
    · exact List.mem_cons_of_mem _ (List.mem_cons_of_mem _ h1)

theorem foldl_min_le (t : List ℚ) :
    ∀ x, t.foldl (fun a b => if b < a then b else a) x ≤ x ∧
      ∀ v ∈ t, t.foldl (fun a b => if b < a then b else a) x ≤ v := by
  induction t with
  | nil => intro x; simp
  | cons b t ih =>
    intro x
    have h := ih (if b < x then b else x)
    have hx : (if b < x then b else x) ≤ x := by split <;> linarith
    have hb : (if b < x then b else x) ≤ b := by split <;> linarith
    simp only [List.foldl_cons]
    refine ⟨le_trans h.1 hx, ?_⟩
    intro v hv
    rcases List.mem_cons.mp hv with h1 | h1
    · rw [h1]; exact le_trans h.1 hb
    · exact h.2 v h1

theorem foldl_max_mem (t : List ℚ) :
    ∀ x, t.foldl (fun a b => if a < b then b else a) x ∈ x :: t := by
  induction t with
  | nil => intro x; simp
  | cons b t ih =>
    intro x
    have h := ih (if x < b then b else x)
    simp only [List.foldl_cons]
    rcases List.mem_cons.mp h with h1 | h1
    · by_cases hb : x < b
      · rw [h1]; simp [hb]
      · rw [h1]; simp [hb]
    · exact List.mem_cons_of_mem _ (List.mem_cons_of_mem _ h1)

theorem foldl_max_ge (t : List ℚ) :
    ∀ x, x ≤ t.foldl (fun a b => if a < b then b else a) x ∧
      ∀ v ∈ t, v ≤ t.foldl (fun a b => if a < b then b else a) x := by
  induction t with
  | nil => intro x; simp
  | cons b t ih =>
    intro x
    have h := ih (if x < b then b else x)
    have hx : x ≤ (if x < b then b else x) := by split <;> linarith
    have hb : b ≤ (if x < b then b else x) := by split <;> linarith
    simp only [List.foldl_cons]
    refine ⟨le_trans hx h.1, ?_⟩
    intro v hv
    rcases List.mem_cons.mp hv with h1 | h1
    · rw [h1]; exact le_trans hb h.1
    · exact h.2 v h1

theorem sqlMin_spec (xs : List ℚ) (h : xs ≠ []) :
    ∃ mn, sqlMin xs = some mn ∧ mn ∈ xs ∧ ∀ v ∈ xs, mn ≤ v := by
  match xs with
  | [] => exact absurd rfl h
  | x :: t =>
    refine ⟨_, rfl, foldl_min_mem t x, ?_⟩
    intro v hv
    rcases List.mem_cons.mp hv with h1 | h1
    · rw [h1]; exact (foldl_min_le t x).1
    · exact (foldl_min_le t x).2 v h1

theorem sqlMax_spec (xs : List ℚ) (h : xs ≠ []) :
    ∃ mx, sqlMax xs = some mx ∧ mx ∈ xs ∧ ∀ v ∈ xs, v ≤ mx := by
  match xs with
  | [] => exact absurd rfl h
  | x :: t =>
    refine ⟨_, rfl, foldl_max_mem t x, ?_⟩
    intro v hv
    rcases List.mem_cons.mp hv with h1 | h1
    · rw [h1]; exact (foldl_max_ge t x).1
    · exact (foldl_max_ge t x).2 v h1

/-- C5: when no metric row matches the filter, `aggregateMetrics`
returns `count = 0` with `avg`, `min` and `max` absent (`none`, hence
omitted from JSON — distinct from present-with-value-0); when at least
one row matches, all three are present and equal the unweighted
arithmetic mean, the minimum and the maximum of the matched rows'
`value` column. -/
theorem aggregateMetrics_empty_omits_and_nonempty_computes
    (tbl : List MetricRow) (opts : QueryOptions) (name : String) :
    (tbl.filter (aggMatch opts name) = [] →
      (AggregateMetrics tbl opts name).Count = 0 ∧
      (AggregateMetrics tbl opts name).Avg = none ∧
      (AggregateMetrics tbl opts name).Min = none ∧
      (AggregateMetrics tbl opts name).Max = none) ∧
    (tbl.filter (aggMatch opts name) ≠ [] →
      (AggregateMetrics tbl opts name).Count =
        ((tbl.filter (aggMatch opts name)).length : Int) ∧
      (AggregateMetrics tbl opts name).Avg =
        some (((tbl.filter (aggMatch opts name)).map (·.value)).sum /
          ((tbl.filter (aggMatch opts name)).length : ℚ)) ∧
      (∃ mn, (AggregateMetrics tbl opts name).Min = some mn ∧
        mn ∈ (tbl.filter (aggMatch opts name)).map (·.value) ∧
        ∀ v ∈ (tbl.filter (aggMatch opts name)).map (·.value), mn ≤ v) ∧
      (∃ mx, (AggregateMetrics tbl opts name).Max = some mx ∧
        mx ∈ (tbl.filter (aggMatch opts name)).map (·.value) ∧
        ∀ v ∈ (tbl.filter (aggMatch opts name)).map (·.value), v ≤ mx)) := by
  constructor
  · intro h
    simp [AggregateMetrics, h, sqlAvg, sqlMin, sqlMax]
  · intro h
    have hne : (tbl.filter (aggMatch opts name)).map (·.value) ≠ [] := by
      simpa using h
    refine ⟨by simp [AggregateMetrics], ?_, ?_, ?_⟩
    · obtain ⟨x, t, hv⟩ := List.exists_cons_of_ne_nil hne
      simp only [AggregateMetrics, sqlAvg, hv]
      have hlen : (tbl.filter (aggMatch opts name)).length = t.length + 1 := by
        have := congrArg List.length hv
        simpa using this
      rw [hlen]
      push_cast
      simp
    · obtain ⟨mn, hmn, hmem, hle⟩ := sqlMin_spec _ hne
      exact ⟨mn, by simpa [AggregateMetrics] using hmn, hmem, hle⟩
    · obtain ⟨mx, hmx, hmem, hle⟩ := sqlMax_spec _ hne
      exact ⟨mx, by simpa [AggregateMetrics] using hmx, hmem, hle⟩

/-- A metrics table for the aggregation witness: two matching `cpu`
rows with values 10 and 30, one non-matching row. -/
def aggWitnessTbl : List MetricRow :=
  [⟨"cpu", "gauge", 10, 5, "svc", 0, false, "", "{}", "1970-01-01"⟩,
   ⟨"cpu", "gauge", 30, 6, "svc", 0, false, "", "{}", "1970-01-01"⟩,
   ⟨"mem", "gauge", 99, 7, "svc", 0, false, "", "{}", "1970-01-01"⟩]

/-- Witness for C5: `cpu` over the witness table averages to 20. -/
theorem aggregateMetrics_empty_omits_and_nonempty_computes_witness :
    aggWitnessTbl.filter (aggMatch ⟨"", 0, 0, 0⟩ "cpu") ≠ [] ∧
    (AggregateMetrics aggWitnessTbl ⟨"", 0, 0, 0⟩ "cpu").Avg = some 20 := by
  have h := (aggregateMetrics_empty_omits_and_nonempty_computes
    aggWitnessTbl ⟨"", 0, 0, 0⟩ "cpu").2 (by decide)
  refine ⟨by decide, ?_⟩
  have hfilter : aggWitnessTbl.filter (aggMatch ⟨"", 0, 0, 0⟩ "cpu") =
      [⟨"cpu", "gauge", 10, 5, "svc", 0, false, "", "{}", "1970-01-01"⟩,
       ⟨"cpu", "gauge", 30, 6, "svc", 0, false, "", "{}", "1970-01-01"⟩] := by
    decide
  rw [h.2.1, hfilter]
  norm_num

/-! ## C3 — state store: last write wins, via temp file + rename -/

theorem applyOps_append (fs : StateFS) (ops : List StoreOp) (op : StoreOp) :
    applyOps fs (ops ++ [op]) = applyOp (applyOps fs ops) op := by
  simp [applyOps, List.foldl_append]

/-- C3: after any operation sequence ending in a successful
`write(record)`, `read()` returns exactly that record; after a
sequence ending in `remove()`, and on a fresh store with no write in
the sequence, `read()` returns `nil`; and `write` is the composition
of serializing to a temporary file in the same directory with renaming
it over the canonical path, leaving the record in the canonical file
and no temporary file behind. -/
theorem stateStore_last_write_wins :
    (∀ (fs : StateFS) (ops : List StoreOp) (r : State),
      readState (applyOps fs (ops ++ [.write r])) = .ok (some r)) ∧
    (∀ (fs : StateFS) (ops : List StoreOp),
      readState (applyOps fs (ops ++ [.remove])) = .ok none) ∧
    (∀ ops : List StoreOp, (∀ s, StoreOp.write s ∉ ops) →
      readState (applyOps StateFS.empty ops) = .ok none) ∧
    (∀ (s : State) (fs : StateFS),
      writeState s fs = renameTmpOverCanonical (writeTmp s fs) ∧
      (writeTmp s fs).tmp = some (.stateJSON s) ∧
      (writeState s fs).canonical = some (.stateJSON s) ∧
      (writeState s fs).tmp = none) := by
  refine ⟨?_, ?_, ?_, ?_⟩
  · intro fs ops r
    rw [applyOps_append]
    rfl
  · intro fs ops
    rw [applyOps_append]
    rfl
  · intro ops h
    induction ops with
    | nil => rfl
    | cons op rest ih =>
      match op with
      | .write s => exact absurd (List.mem_cons_self _ _) (h s)
      | .remove =>
        have hrest : ∀ s, StoreOp.write s ∉ rest := by
          intro s hs
          exact h s (List.mem_cons_of_mem _ hs)
        have hempty : applyOp StateFS.empty .remove = StateFS.empty := rfl
        show readState (applyOps (applyOp StateFS.empty .remove) rest) = .ok none
        rw [hempty]
        exact ih hrest
  · intro s fs
    exact ⟨rfl, rfl, rfl, rfl⟩

/-- Witness for C3 at a singleton operation sequence. -/
theorem stateStore_last_write_wins_witness :
    (∀ s, StoreOp.write s ∉ ([.remove] : List StoreOp)) ∧
    readState (applyOps StateFS.empty [.remove]) = .ok none := by
  refine ⟨fun s hs => by simp at hs, ?_⟩
  exact stateStore_last_write_wins.2.2.1 [.remove] (fun s hs => by simp at hs)

/-! ## C6 — health probe: exact 200, not the whole 2xx range -/

/-- Counterexample to C6 as stated: a `204 No Content` response is in
the 2xx range, yet `checkHealth` reports it unhealthy — the source
compares against `http.StatusOK` exactly. -/
theorem checkHealth_204_counterexample :
    checkHealth (some 204) = false ∧ 200 ≤ 204 ∧ 204 ≤ 299 := by
  decide

/-- C6 amended: the probe reports healthy iff the response status code
is exactly 200; any other status (2xx included) and any transport
error is unhealthy; the probe uses a 2-second timeout against the
fixed URL `http://localhost:13133/`. -/
theorem checkHealth_iff_200 :
    (∀ resp, checkHealth resp = (resp == some 200)) ∧
    healthURL = "http://localhost:13133/" ∧
    healthTimeoutSeconds = 2 := by
  refine ⟨?_, rfl, rfl⟩
  intro resp
  cases resp <;> rfl

/-! ## C7 — locating the executable on start -/

/-- C7: the checked-in `Start` path never looks for the collector
binaries: on a `PATH` that resolves both `otelcol-contrib` and
`otelcol` (but not `docker`), the search the code performs fails with
Docker installation guidance, while the locator the spec describes
succeeds.  (The package's own tests and README describe the
spec-side subprocess supervisor.) -/
theorem findDocker_ignores_collector_binaries :
    findDocker ["otelcol-contrib", "otelcol"] =
      .error "docker not found in PATH; install from https://docs.docker.com/get-docker/" ∧
    locateCollectorSpec ["otelcol-contrib", "otelcol"] = .ok "otelcol-contrib" ∧
    findDocker ["docker"] = .ok "docker" := by
  refine ⟨?_, ?_, ?_⟩ <;> rfl

/-! ## C10 — extraction covers every present metric shape in order -/

/-- C10: data-point extraction decomposes into the extraction of the
sum shape alone, then the gauge shape alone, then the histogram shape
alone — so a metric record carrying several shapes at once produces
the points of every present shape, concatenated in the fixed order
sum, gauge, histogram — and the number of extracted points is the
total number of data points across the present shapes. -/
theorem extractDataPoints_all_shapes_in_order (m : otlpMetric) :
    extractDataPoints m =
      extractDataPoints ⟨m.Name, m.Description, m.Unit, m.Sum, none, none⟩ ++
      extractDataPoints ⟨m.Name, m.Description, m.Unit, none, m.Gauge, none⟩ ++
      extractDataPoints ⟨m.Name, m.Description, m.Unit, none, none, m.Histogram⟩ ∧
    (extractDataPoints m).length =
      (match m.Sum with | some su => su.DataPoints.length | none => 0) +
      (match m.Gauge with | some g => g.DataPoints.length | none => 0) +
      (match m.Histogram with | some h => h.DataPoints.length | none => 0) := by
  obtain ⟨Name, Description, Unit, Sum, Gauge, Histogram⟩ := m
  constructor
  · cases Sum <;> cases Gauge <;> cases Histogram <;> simp [extractDataPoints]
  · cases Sum <;> cases Gauge <;> cases Histogram <;> simp [extractDataPoints, Nat.add_assoc]

/-! ## C4 — extracted data points: type set and value derivation -/

/-- Claim-side: the value rule for sum and gauge points — `asDouble`
when present, else the numeric parse of `asInt`, else 0. -/
def sumGaugeValueSpec (dp : otlpDataPoint) (v : ℚ) : Prop :=
  match dp.AsDouble with
  | some d => v = d
  | none =>
    match dp.AsInt with
    | some s => v = sscanfF s
    | none => v = 0

/-- Claim-side: the value rule for histogram points — the point-level
`sum` when present, else 0. -/
def histValueSpec (dp : otlpHistogramDP) (v : ℚ) : Prop :=
  match dp.Sum with
  | some s => v = s
  | none => v = 0

theorem value_satisfies_sumGaugeValueSpec (dp : otlpDataPoint) :
    sumGaugeValueSpec dp dp.Value := by
  unfold sumGaugeValueSpec otlpDataPoint.Value
  split
  · rfl
  · split <;> rfl

/-- C4: every point extracted from an OTLP metric record has
`metric_type` among `"sum"`, `"gauge"`, `"histogram"`, comes from a
data point of the shape of that type, and its stored value follows the
claimed derivation: `asDouble`-else-`asInt`-parse-else-0 for sum and
gauge, point-level `sum`-else-0 for histograms. -/
theorem extractDataPoints_type_and_value (m : otlpMetric) (p : metricPoint)
    (hp : p ∈ extractDataPoints m) :
    (p.metricType = "sum" ∧ ∃ su dp, m.Sum = some su ∧ dp ∈ su.DataPoints ∧
      sumGaugeValueSpec dp p.value) ∨
    (p.metricType = "gauge" ∧ ∃ g dp, m.Gauge = some g ∧ dp ∈ g.DataPoints ∧
      sumGaugeValueSpec dp p.value) ∨
    (p.metricType = "histogram" ∧ ∃ h dp, m.Histogram = some h ∧ dp ∈ h.DataPoints ∧
      histValueSpec dp p.value) := by
  unfold extractDataPoints at hp
  rcases List.mem_append.mp hp with hp1 | hp3
  · rcases List.mem_append.mp hp1 with hpS | hpG
    · left
      split at hpS
      · rename_i su hsu
        obtain ⟨dp, hdp, hmap⟩ := List.mem_map.mp hpS
        subst hmap
        exact ⟨rfl, su, dp, hsu, hdp, value_satisfies_sumGaugeValueSpec dp⟩
      · simp at hpS
    · right; left
      split at hpG
      · rename_i g hg
        obtain ⟨dp, hdp, hmap⟩ := List.mem_map.mp hpG
        subst hmap
        exact ⟨rfl, g, dp, hg, hdp, value_satisfies_sumGaugeValueSpec dp⟩
      · simp at hpG
  · right; right
    split at hp3
    · rename_i h hh
      obtain ⟨dp, hdp, hmap⟩ := List.mem_map.mp hp3
      subst hmap
      refine ⟨rfl, h, dp, hh, hdp, ?_⟩
      unfold histValueSpec
      split <;> simp_all
    · simp at hp3

/-- A one-point sum metric for the C4 witness (the point carries
`asDouble`). -/
def c4WitnessMetric : otlpMetric :=
  ⟨"http_requests_total", "", "1",
   some ⟨[⟨[], 1700000000000000000, none, some 100⟩], 2, true⟩,
   none, none⟩

/-- The point `extractDataPoints` produces for `c4WitnessMetric`. -/
def c4WitnessPoint : metricPoint :=
  ⟨"sum", 100, 1700000000000000000, 2, true, []⟩

/-- Witness for C4 at a concrete sum data point carrying `asInt`. -/
theorem extractDataPoints_type_and_value_witness :
    c4WitnessPoint ∈ extractDataPoints c4WitnessMetric ∧
    ((c4WitnessPoint.metricType = "sum" ∧
      ∃ su dp, c4WitnessMetric.Sum = some su ∧ dp ∈ su.DataPoints ∧
        sumGaugeValueSpec dp c4WitnessPoint.value) ∨
     (c4WitnessPoint.metricType = "gauge" ∧
      ∃ g dp, c4WitnessMetric.Gauge = some g ∧ dp ∈ g.DataPoints ∧
        sumGaugeValueSpec dp c4WitnessPoint.value) ∨
     (c4WitnessPoint.metricType = "histogram" ∧
      ∃ h dp, c4WitnessMetric.Histogram = some h ∧ dp ∈ h.DataPoints ∧
        histValueSpec dp c4WitnessPoint.value)) := by
  have hmem : c4WitnessPoint ∈ extractDataPoints c4WitnessMetric := by
    decide
  exact ⟨hmem, extractDataPoints_type_and_value c4WitnessMetric c4WitnessPoint hmem⟩

/-! ## C9 — string-typed OTLP timestamps -/

/-- Claim-side: a decimal-integer string (optionally negative). -/
def isDecIntString (s : String) : Bool :=
  let cs := match s.data with
    | '-' :: r => r
    | cs => cs
  !cs.isEmpty && cs.all (·.isDigit)

/-- Counterexample to C9 as stated: `"12abc"` is not a decimal
integer, yet unmarshalling yields `12`, not `0` — `Sscanf "%d"`
consumes the integer prefix and ignores the rest. -/
theorem otlpNano_string_12abc_counterexample :
    otlpNanoUnmarshal (.str "12abc") = .ok 12 ∧
    isDecIntString "12abc" = false ∧
    (12 : Int) ≠ 0 := by
  refine ⟨?_, by decide, by decide⟩
  show Except.ok (sscanfD "12abc") = Except.ok 12
  rw [show sscanfD "12abc" = 12 from by decide]

/-- C9 amended: unmarshalling a string-typed timestamp never raises an
error; the value is the `Sscanf "%d"` scan of the string — the
optionally-signed decimal prefix — which is `0` whenever the string
contains no digit at all (such as `"abc"` or `""`); and the value `0`
is mapped to the zero instant. -/
theorem otlpNano_string_never_errors :
    (∀ s, otlpNanoUnmarshal (.str s) = .ok (sscanfD s)) ∧
    (∀ s, s.data.all (fun c => !c.isDigit) → otlpNanoUnmarshal (.str s) = .ok 0) ∧
    otlpNanoTime 0 = none := by
  refine ⟨fun s => rfl, ?_, rfl⟩
  intro s hs
  show Except.ok (sscanfD s) = Except.ok 0
  have hall : ∀ c ∈ s.data, c.isDigit = false := by
    intro c hc
    have := List.all_eq_true.mp hs c hc
    simpa using this
  have hnodigit :
      ((stripSign (s.data.dropWhile (·.isWhitespace))).2.takeWhile (·.isDigit)) = [] := by
    have hsub : (stripSign (s.data.dropWhile (·.isWhitespace))).2.Sublist s.data :=
      (stripSign_sublist _).trans (List.dropWhile_sublist _)
    match hm : (stripSign (s.data.dropWhile (·.isWhitespace))).2 with
    | [] => rfl
    | c :: r =>
      rw [hm] at hsub
      have hc : c ∈ s.data := hsub.mem (List.mem_cons_self c r)
      simp [List.takeWhile_cons, hall c hc]
  simp [sscanfD, hnodigit]

/-- Witness for C9's amended theorem at the claim's own example
`"abc"`. -/
theorem otlpNano_string_never_errors_witness :
    ("abc".data.all fun c => !c.isDigit) = true ∧
    otlpNanoUnmarshal (.str "abc") = .ok 0 := by
  refine ⟨by decide, ?_⟩
  exact otlpNano_string_never_errors.2.1 "abc" (by decide)

/-! ## C8 — time parsing: character-class bridges and digit runs -/

theorem char_le_iff_toNat {a b : Char} : a ≤ b ↔ a.toNat ≤ b.toNat := Iff.rfl

theorem char_lt_iff_toNat {a b : Char} : a < b ↔ a.toNat < b.toNat := Iff.rfl

theorem uint32_le_iff_toNat {a b : UInt32} : a ≤ b ↔ a.toNat ≤ b.toNat := Iff.rfl

theorem isDigit_iff_toNat {c : Char} : c.isDigit = true ↔ 48 ≤ c.toNat ∧ c.toNat ≤ 57 := by
  simp only [Char.isDigit, ge_iff_le, Bool.and_eq_true, decide_eq_true_eq]
  constructor
  · rintro ⟨h1, h2⟩
    exact ⟨uint32_le_iff_toNat.mp h1, uint32_le_iff_toNat.mp h2⟩
  · rintro ⟨h1, h2⟩
    exact ⟨uint32_le_iff_toNat.mpr h1, uint32_le_iff_toNat.mpr h2⟩

theorem digit_ne_of_toNat {c bad : Char} (h : c.isDigit = true)
    (hbad : bad.isDigit = false) : c ≠ bad := by
  intro heq
  rw [heq] at h
  rw [h] at hbad
  cases hbad

theorem digit_not_stop {c : Char} (h : c.isDigit = true) : ¬(c < '0' ∨ '9' < c) := by
  have hb := isDigit_iff_toNat.mp h
  rintro (hlt | hlt) <;> rw [char_lt_iff_toNat] at hlt <;>
    simp [Char.toNat, UInt32.size] at hlt hb <;> omega

theorem digit_durUnitStop {c : Char} (h : c.isDigit = true) : durUnitStop c = true := by
  have hb := isDigit_iff_toNat.mp h
  simp only [durUnitStop, decide_eq_true_eq]
  exact Or.inr ⟨char_le_iff_toNat.mpr (by simpa [Char.toNat, UInt32.size] using hb.1),
    char_le_iff_toNat.mpr (by simpa [Char.toNat, UInt32.size] using hb.2)⟩

theorem digit_not_whitespace {c : Char} (h : c.isDigit = true) :
    c.isWhitespace = false := by
  have h1 : c ≠ ' ' := digit_ne_of_toNat h (by decide)
  have h2 : c ≠ '\t' := digit_ne_of_toNat h (by decide)
  have h3 : c ≠ '\r' := digit_ne_of_toNat h (by decide)
  have h4 : c ≠ '\n' := digit_ne_of_toNat h (by decide)
  simp [Char.isWhitespace, h1, h2, h3, h4]

/-- The digit-run fold is monotone in its accumulator. -/
theorem foldl_digits_ge (ds : List Char) :
    ∀ x : Nat, x ≤ ds.foldl (fun a c => a * 10 + (c.toNat - 48)) x := by
  induction ds with
  | nil => intro x; exact le_refl x
  | cons c t ih =>
    intro x
    calc x ≤ x * 10 + (c.toNat - 48) := by omega
      _ ≤ t.foldl (fun a c => a * 10 + (c.toNat - 48)) (x * 10 + (c.toNat - 48)) := ih _

/-- `leadingInt` over a digit run followed by a non-digit (or nothing)
returns the run's value and the remainder, provided the value stays
within the overflow guard. -/
theorem leadingIntGo_digits (ds : List Char) :
    ∀ (rest : List Char) (x : Nat),
      (∀ c ∈ ds, c.isDigit = true) →
      (rest = [] ∨ ∃ c r, rest = c :: r ∧ (c < '0' ∨ '9' < c)) →
      ds.foldl (fun a c => a * 10 + (c.toNat - 48)) x ≤ 2 ^ 63 / 10 →
      leadingIntGo x (ds ++ rest) =
        some (ds.foldl (fun a c => a * 10 + (c.toNat - 48)) x, rest) := by
  induction ds with
  | nil =>
    intro rest x _ hrest _
    rcases hrest with hrest | ⟨c, r, hrest, hstop⟩
    · subst hrest; rfl
    · subst hrest
      simp only [List.nil_append, List.foldl_nil, leadingIntGo, if_pos hstop]
  | cons c t ih =>
    intro rest x hds hrest hbound
    have hc : c.isDigit = true := hds c (List.mem_cons_self _ _)
    have hx : x ≤ t.foldl (fun a c => a * 10 + (c.toNat - 48)) (x * 10 + (c.toNat - 48)) := by
      calc x ≤ x * 10 + (c.toNat - 48) := by omega
        _ ≤ _ := foldl_digits_ge t _
    have hy : x * 10 + (c.toNat - 48) ≤
        t.foldl (fun a c => a * 10 + (c.toNat - 48)) (x * 10 + (c.toNat - 48)) :=
      foldl_digits_ge t _
    simp only [List.foldl_cons] at hbound
    simp only [List.cons_append, leadingIntGo, if_neg (digit_not_stop hc)]
    rw [if_neg (by omega), if_neg (by omega)]
    exact ih rest _ (fun d hd => hds d (List.mem_cons_of_mem _ hd)) hrest hbound

theorem durFrac_single_not_dot {u : Char} (hu : u ≠ '.') :
    durFrac [u] = (0, 1, [u], false) := by
  unfold durFrac
  split
  · rename_i r heq
    injection heq with h1 _
    exact absurd h1 hu
  · rfl

theorem durStep_digits_unit (ds : List Char) (u : Char) (n : Nat)
    (hne : ds ≠ [])
    (hds : ∀ c ∈ ds, c.isDigit = true)
    (hdot : u ≠ '.')
    (hstop : durUnitStop u = false)
    (hnd : u < '0' ∨ '9' < u)
    (hunit : unitMapGo (String.mk [u]) = some n)
    (hn10 : 10 ≤ n)
    (hbound : digitsValNat ds * n < 2 ^ 63) :
    durStep (ds ++ [u]) = some (digitsValNat ds * n, []) := by
  obtain ⟨d0, ds', rfl⟩ : ∃ d0 ds', ds = d0 :: ds' := by
    match ds, hne with
    | d0 :: ds', _ => exact ⟨d0, ds', rfl⟩
  have hd0 : d0.isDigit = true := hds d0 (List.mem_cons_self _ _)
  have hdv10 : digitsValNat (d0 :: ds') ≤ 2 ^ 63 / 10 := by
    rw [Nat.le_div_iff_mul_le (by norm_num)]
    calc digitsValNat (d0 :: ds') * 10
        ≤ digitsValNat (d0 :: ds') * n := Nat.mul_le_mul_left _ hn10
      _ ≤ 2 ^ 63 := le_of_lt hbound
  have hLI : leadingIntGo 0 ((d0 :: ds') ++ [u]) = some (digitsValNat (d0 :: ds'), [u]) :=
    leadingIntGo_digits (d0 :: ds') [u] 0 hds (Or.inr ⟨u, [], rfl, hnd⟩) hdv10
  have hdvn : digitsValNat (d0 :: ds') ≤ 2 ^ 63 / n := by
    rw [Nat.le_div_iff_mul_le (by omega)]
    exact le_of_lt hbound
  have hcons : (d0 :: ds') ++ [u] = d0 :: (ds' ++ [u]) := rfl
  rw [hcons] at hLI ⊢
  simp only [durStep, hLI]
  rw [if_neg (by simp [digit_durUnitStop hd0])]
  simp only [durFrac_single_not_dot hdot]
  have hpre : (([u] : List Char).length != (d0 :: (ds' ++ [u])).length) = true := by
    simp
  have hi : (([u] : List Char).takeWhile (fun ch => !durUnitStop ch)).length = 1 := by
    simp [List.takeWhile_cons, hstop]
  simp only [hi]
  rw [if_neg (by simp), if_neg (by simp)]
  have htake : ([u] : List Char).take 1 = [u] := rfl
  rw [htake, hunit]
  have hgt : ¬(digitsValNat (d0 :: ds') > 2 ^ 63 / n) := by omega
  simp [hgt]
  have h2 := hdvn
  norm_num at h2
  exact h2

theorem durLoop_digits_unit (ds : List Char) (u : Char) (n : Nat)
    (hne : ds ≠ [])
    (hds : ∀ c ∈ ds, c.isDigit = true)
    (hdot : u ≠ '.')
    (hstop : durUnitStop u = false)
    (hnd : u < '0' ∨ '9' < u)
    (hunit : unitMapGo (String.mk [u]) = some n)
    (hn10 : 10 ≤ n)
    (hbound : digitsValNat ds * n < 2 ^ 63) :
    durLoop (ds ++ [u]).length (ds ++ [u]) 0 = some (digitsValNat ds * n) := by
  obtain ⟨d0, ds', rfl⟩ : ∃ d0 ds', ds = d0 :: ds' := by
    match ds, hne with
    | d0 :: ds', _ => exact ⟨d0, ds', rfl⟩
  have hstep := durStep_digits_unit (d0 :: ds') u n hne hds hdot hstop hnd hunit hn10 hbound
  have hlen : ((d0 :: ds') ++ [u]).length = (ds' ++ [u]).length + 1 := by simp
  have hcons : (d0 :: ds') ++ [u] = d0 :: (ds' ++ [u]) := rfl
  rw [hcons] at hstep ⊢
  rw [show (d0 :: (ds' ++ [u])).length = (ds' ++ [u]).length + 1 from by simp]
  simp only [durLoop, hstep]
  have hmod : (0 + digitsValNat (d0 :: ds') * n) % 2 ^ 64 = digitsValNat (d0 :: ds') * n := by
    rw [Nat.zero_add, Nat.mod_eq_of_lt (by omega)]
  simp only [hmod]
  rw [if_neg (by omega)]

theorem goParseDuration_digits_unit (ds : List Char) (u : Char) (n : Nat)
    (hne : ds ≠ [])
    (hds : ∀ c ∈ ds, c.isDigit = true)
    (hdot : u ≠ '.')
    (hstop : durUnitStop u = false)
    (hnd : u < '0' ∨ '9' < u)
    (hunit : unitMapGo (String.mk [u]) = some n)
    (hn10 : 10 ≤ n)
    (hbound : digitsValNat ds * n < 2 ^ 63) :
    goParseDuration (String.mk (ds ++ [u])) =
      some ((digitsValNat ds * n : Nat) : Int) := by
  obtain ⟨d0, ds', rfl⟩ : ∃ d0 ds', ds = d0 :: ds' := by
    match ds, hne with
    | d0 :: ds', _ => exact ⟨d0, ds', rfl⟩
  have hd0 : d0.isDigit = true := hds d0 (List.mem_cons_self _ _)
  have hminus : d0 ≠ '-' := digit_ne_of_toNat hd0 (by decide)
  have hplus : d0 ≠ '+' := digit_ne_of_toNat hd0 (by decide)
  have hloop := durLoop_digits_unit (d0 :: ds') u n hne hds hdot hstop hnd hunit hn10 hbound
  have hcons : (d0 :: ds') ++ [u] = d0 :: (ds' ++ [u]) := rfl
  rw [hcons] at hloop ⊢
  have hdata : (String.mk (d0 :: (ds' ++ [u]))).data = d0 :: (ds' ++ [u]) := rfl
  simp only [goParseDuration, hdata]
  rw [if_neg (not_or.mpr ⟨hminus, hplus⟩)]
  have h0 : ¬(d0 :: (ds' ++ [u]) = ['0']) := by
    intro hcontra
    have := congrArg List.length hcontra
    simp at this
  have hnil : ¬(d0 :: (ds' ++ [u]) = ([] : List Char)) := by simp
  have hloop2 : durLoop (ds'.length + 1 + 1) (d0 :: (ds' ++ [u])) 0 =
      some (digitsValNat (d0 :: ds') * n) := by
    have hl : (d0 :: (ds' ++ [u])).length = ds'.length + 1 + 1 := by simp
    rw [← hl]
    exact hloop
  have hd63 : ¬(9223372036854775807 < digitsValNat (d0 :: ds') * n) := by omega
  simp [h0, hnil, hloop2, hd63]

theorem stripSign_no_sign {c : Char} (r : List Char)
    (h1 : c ≠ '-') (h2 : c ≠ '+') : stripSign (c :: r) = (false, c :: r) := by
  unfold stripSign
  split
  · rename_i heq; injection heq with ha _; exact absurd ha h1
  · rename_i heq; injection heq with ha _; exact absurd ha h2
  · rfl

theorem foldl_digits_int (ds : List Char) (hds : ∀ c ∈ ds, c.isDigit = true) :
    ∀ a : Nat, ds.foldl (fun x c => x * 10 + ((c.toNat : Int) - 48)) (a : Int) =
      ((ds.foldl (fun x c => x * 10 + (c.toNat - 48)) a : Nat) : Int) := by
  induction ds with
  | nil => intro a; rfl
  | cons c t ih =>
    intro a
    have hc : 48 ≤ c.toNat := (isDigit_iff_toNat.mp (hds c (List.mem_cons_self _ _))).1
    have hcast : (a : Int) * 10 + ((c.toNat : Int) - 48) =
        ((a * 10 + (c.toNat - 48) : Nat) : Int) := by
      push_cast [Nat.cast_sub hc]
      ring
    simp only [List.foldl_cons, hcast]
    exact ih (fun d hd => hds d (List.mem_cons_of_mem _ hd)) _

theorem sscanfDD_digits (ds : List Char)
    (hne : ds ≠ [])
    (hds : ∀ c ∈ ds, c.isDigit = true)
    (hrange : digitsValNat ds ≤ 2 ^ 63 - 1) :
    sscanfDD (String.mk (ds ++ ['d'])) = some ((digitsValNat ds : Int)) := by
  obtain ⟨d0, ds', rfl⟩ : ∃ d0 ds', ds = d0 :: ds' := by
    match ds, hne with
    | d0 :: ds', _ => exact ⟨d0, ds', rfl⟩
  have hd0 : d0.isDigit = true := hds d0 (List.mem_cons_self _ _)
  have hminus : d0 ≠ '-' := digit_ne_of_toNat hd0 (by decide)
  have hplus : d0 ≠ '+' := digit_ne_of_toNat hd0 (by decide)
  have hcons : (d0 :: ds') ++ ['d'] = d0 :: (ds' ++ ['d']) := rfl
  have hdata : (String.mk (d0 :: (ds' ++ ['d']))).data = d0 :: (ds' ++ ['d']) := rfl
  have hdw : (d0 :: (ds' ++ ['d'])).dropWhile (·.isWhitespace) = d0 :: (ds' ++ ['d']) :=
    List.dropWhile_cons_of_neg (by simp [digit_not_whitespace hd0])
  have hss : stripSign (d0 :: (ds' ++ ['d'])) = (false, d0 :: (ds' ++ ['d'])) :=
    stripSign_no_sign _ hminus hplus
  have hdIsDigit : ('d' : Char).isDigit = false := by decide
  have htw : (d0 :: (ds' ++ ['d'])).takeWhile (·.isDigit) = d0 :: ds' := by
    rw [show (d0 :: (ds' ++ ['d'])) = (d0 :: ds') ++ ['d'] from rfl]
    rw [List.takeWhile_append_of_pos hds]
    simp [List.takeWhile_cons, hdIsDigit]
  have hfold : List.foldl (fun a c => a * 10 + ((c.toNat : Int) - 48)) 0 (d0 :: ds') =
      ((digitsValNat (d0 :: ds') : Int)) := by
    have h := foldl_digits_int (d0 :: ds') hds 0
    simpa [digitsValNat] using h
  rw [hcons]
  simp only [sscanfDD, hdata, hdw, hss, htw]
  rw [if_neg (by simp)]
  rw [hfold]
  have hsigned : (if false = true then -((digitsValNat (d0 :: ds') : Int))
      else ((digitsValNat (d0 :: ds') : Int))) = ((digitsValNat (d0 :: ds') : Int)) := by
    simp
  rw [hsigned]
  rw [if_neg (by push_cast; omega)]
  have hdrop2 : List.drop (d0 :: ds').length (d0 :: (ds' ++ ['d'])) = ['d'] := by
    rw [show (d0 :: (ds' ++ ['d'])) = (d0 :: ds') ++ ['d'] from rfl]
    exact List.drop_left _ _
  rw [hdrop2]
  rfl

theorem int64Wrap_eq_self {x : Int} (h0 : 0 ≤ x) (h1 : x < 2 ^ 63) :
    int64Wrap x = x := by
  unfold int64Wrap
  rw [Int.emod_eq_of_lt (by omega) (by omega)]
  omega

theorem specDurationGrammar_concat (ds : List Char) (u : Char)
    (hne : ds ≠ []) (hds : ∀ c ∈ ds, c.isDigit = true)
    (hu : u = 's' ∨ u = 'm' ∨ u = 'h' ∨ u = 'd') :
    specDurationGrammar (String.mk (ds ++ [u])) = true := by
  have hdata : (String.mk (ds ++ [u])).data = ds ++ [u] := rfl
  have hie : ds.isEmpty = false := by
    cases ds
    · exact absurd rfl hne
    · rfl
  have hall : ds.all (·.isDigit) = true := List.all_eq_true.mpr hds
  simp only [specDurationGrammar, hdata, List.getLast?_concat, List.dropLast_concat]
  rcases hu with h | h | h | h <;> subst h <;> simp [hie, hall]

/-- Counterexample to C8 as stated: `"1h30m"` is accepted by the CLI's
duration parsing (Go duration syntax, value 90 minutes) although it
matches neither of the two claimed forms — it is not a decimal integer
followed by one of `s`/`m`/`h`/`d`, and it is not an RFC3339 instant. -/
theorem parseDuration_1h30m_counterexample :
    parseDuration "1h30m" = some 5400000000000 ∧
    specDurationGrammar "1h30m" = false ∧
    rfc3339Shape "1h30m" = false :=
  ⟨by decide, by decide, by decide⟩

/-- C8 (amended): every string of the spec's relative grammar — a
decimal digit run followed by one unit letter `s`, `m`, `h` or `d`
(`d` meaning 24 hours) — whose value fits in the parser's `int64`
nanosecond range is accepted by `parseDuration` with exactly the
claimed value (so `now - duration` results for `--since`, `--until`
and `--older-than`); and the set of accepted strings is strictly
larger than the claimed forms: `"1h30m"` is accepted, with the value
90 minutes, although it matches neither the relative grammar nor the
shape of an RFC3339 instant. -/
theorem parseDuration_accepts_spec_grammar (ds : List Char) (u : Char)
    (hne : ds ≠ [])
    (hds : ∀ c ∈ ds, c.isDigit = true)
    (hu : u = 's' ∨ u = 'm' ∨ u = 'h' ∨ u = 'd')
    (hbound : digitsValNat ds * specUnitNanos u < 2 ^ 63) :
    (parseDuration (String.mk (ds ++ [u])) =
      some ((digitsValNat ds * specUnitNanos u : Nat) : Int) ∧
     specDurationGrammar (String.mk (ds ++ [u])) = true) ∧
    (parseDuration "1h30m" = some 5400000000000 ∧
     specDurationGrammar "1h30m" = false ∧
     rfc3339Shape "1h30m" = false) := by
  refine ⟨⟨?_, specDurationGrammar_concat ds u hne hds hu⟩,
    by decide, by decide, by decide⟩
  have hdata : (String.mk (ds ++ [u])).data = ds ++ [u] := rfl
  have hlen : 1 < (ds ++ [u]).length := by
    have : 0 < ds.length := List.length_pos.mpr hne
    simp
    omega
  rcases hu with h | h | h | h <;> subst h
  · -- unit "s"
    unfold parseDuration
    rw [hdata]
    rw [if_neg (by
      rintro ⟨-, hlast⟩
      rw [List.getLast?_concat] at hlast
      cases hlast)]
    exact goParseDuration_digits_unit ds 's' 1000000000 hne hds (by decide) (by decide)
      (Or.inr (by decide)) (by decide) (by norm_num)
      (by simpa [specUnitNanos] using hbound)
  · -- unit "m"
    unfold parseDuration
    rw [hdata]
    rw [if_neg (by
      rintro ⟨-, hlast⟩
      rw [List.getLast?_concat] at hlast
      cases hlast)]
    exact goParseDuration_digits_unit ds 'm' 60000000000 hne hds (by decide) (by decide)
      (Or.inr (by decide)) (by decide) (by norm_num)
      (by simpa [specUnitNanos] using hbound)
  · -- unit "h"
    unfold parseDuration
    rw [hdata]
    rw [if_neg (by
      rintro ⟨-, hlast⟩
      rw [List.getLast?_concat] at hlast
      cases hlast)]
    exact goParseDuration_digits_unit ds 'h' 3600000000000 hne hds (by decide) (by decide)
      (Or.inr (by decide)) (by decide) (by norm_num)
      (by simpa [specUnitNanos] using hbound)
  · -- unit "d": the Sscanf day branch
    have hbd : digitsValNat ds * 86400000000000 < 2 ^ 63 := by
      simpa [specUnitNanos] using hbound
    unfold parseDuration
    rw [hdata]
    rw [if_pos ⟨hlen, List.getLast?_concat _⟩]
    rw [sscanfDD_digits ds hne hds (by omega)]
    have harith : ((digitsValNat ds : Int)) * 24 * 3600000000000 =
        ((digitsValNat ds * 86400000000000 : Nat) : Int) := by
      push_cast
      ring
    show some (int64Wrap ((digitsValNat ds : Int) * 24 * 3600000000000)) =
      some ((digitsValNat ds * specUnitNanos 'd' : Nat) : Int)
    rw [harith, int64Wrap_eq_self (by positivity) (by push_cast; exact_mod_cast hbd)]
    rfl

/-- Witness for C8's amended theorem at `"7d"`. -/
theorem parseDuration_accepts_spec_grammar_witness :
    parseDuration "7d" = some 604800000000000 ∧
    specDurationGrammar "7d" = true := by
  have h := parseDuration_accepts_spec_grammar ['7'] 'd' (by decide)
    (by decide) (Or.inr (Or.inr (Or.inr rfl))) (by decide)
  simpa [digitsValNat, specUnitNanos] using h.1

end Lotel
